import Mathlib

/-
  Verification development for the ColoringBook_CoverBuilder repository
  (cover_builder.py and interior_builder.py).

  Shallow embedding conventions:
  - Python floats are modelled as exact rationals.
  - Python round() on a float is modelled as round-half-to-even (pyRound);
    int() truncation toward zero is pyTrunc.
  - Raised exceptions are modelled by Option (none = the call raises).
  - The process-global generator of the random module is modelled by an
    explicit state (RState) threaded through the build; seeding replaces
    the state by a value computed from the seed alone.
  - Strings are modelled as List Char.
-/

/-- Round half to even on rationals: the behaviour of Python round on a float. -/
def pyRound (q : ℚ) : ℤ :=
  if q - ⌊q⌋ < 1/2 then ⌊q⌋
  else if 1/2 < q - ⌊q⌋ then ⌊q⌋ + 1
  else if ⌊q⌋ % 2 = 0 then ⌊q⌋ else ⌊q⌋ + 1

/-- Truncation toward zero: the behaviour of Python int() on a float. -/
def pyTrunc (q : ℚ) : ℤ := q.num / (q.den : ℤ)

def DPI : ℚ := 300

def BLEED_IN : ℚ := 1/8

/-- Function inches_to_px, cover_builder.py line 96: int(round(inches * DPI)). -/
def inches_to_px (inches : ℚ) : ℤ := pyRound (inches * DPI)

/-- The paper types of the PAPER_THICKNESS dict, cover_builder.py lines 61-67. -/
inductive Paper
  | white
  | cream
  | color_premium
  | color_standard
deriving DecidableEq

/-- PAPER_THICKNESS values (inches per page), cover_builder.py lines 61-67. -/
def PAPER_THICKNESS : Paper → ℚ
  | .white => 2252/1000000
  | .cream => 25/10000
  | .color_premium => 2347/1000000
  | .color_standard => 2252/1000000

/-- The Size dataclass of cover_builder.py (lines 90-93). -/
structure SizePx where
  w : ℤ
  h : ℤ
deriving DecidableEq

/-- Function compute_dimensions, cover_builder.py lines 223-234.  Returns
(total canvas size, trim size in px, spine width in px). -/
def compute_dimensions (trim_w_in trim_h_in : ℚ) (pages : ℤ) (paper : Paper) :
    SizePx × SizePx × ℤ :=
  let trim_w_px := inches_to_px trim_w_in
  let trim_h_px := inches_to_px trim_h_in
  let spine_in := PAPER_THICKNESS paper * (pages : ℚ)
  let spine_px := inches_to_px spine_in
  let total_w_px := inches_to_px (BLEED_IN * 2 + trim_w_in * 2 + spine_in)
  let total_h_px := inches_to_px (BLEED_IN * 2 + trim_h_in)
  (⟨total_w_px, total_h_px⟩, ⟨trim_w_px, trim_h_px⟩, spine_px)

/-- Truthiness of the optional spine_title argument: Python treats None and
the empty string as false (cover_builder.py line 360, condition spine_title). -/
def pyTruthy (s : Option (List Char)) : Bool :=
  match s with
  | none => false
  | some t => !t.isEmpty

/-- The guard of the spine-text block, cover_builder.py line 360:
if spine_title and pages >= 79 and spine_px > 0. -/
def spine_text_rendered (spineTitle : Option (List Char)) (pages : ℤ) (spine_px : ℤ) : Bool :=
  pyTruthy spineTitle && (79 ≤ pages) && (0 < spine_px)

/-- Whether a cover build renders spine text: the guard of line 360 applied to
the spine width computed by compute_dimensions for the build inputs. -/
def build_renders_spine (trim_w_in trim_h_in : ℚ) (pages : ℤ) (paper : Paper)
    (spineTitle : Option (List Char)) : Bool :=
  spine_text_rendered spineTitle pages (compute_dimensions trim_w_in trim_h_in pages paper).2.2

/-! ### Character classes and string helpers (models of Python str behaviour) -/

/-- Model of the regex class d (ASCII digits). -/
def isDigitC (c : Char) : Bool := 48 ≤ c.toNat && c.toNat ≤ 57
def isWsC (c : Char) : Bool :=
  c.toNat = 32 || c.toNat = 9 || c.toNat = 10 || c.toNat = 13 || c.toNat = 12 || c.toNat = 11
def lowerC (c : Char) : Char :=
  if 65 ≤ c.toNat ∧ c.toNat ≤ 90 then Char.ofNat (c.toNat + 32) else c

def digitsVal (l : List Char) : ℕ := l.foldl (fun a c => 10 * a + (c.toNat - 48)) 0

def numVal (d : List Char) (f : Option (List Char)) : ℚ :=
  (digitsVal d : ℚ) +
    match f with
    | none => 0
    | some fr => (digitsVal fr : ℚ) / (10 : ℚ) ^ fr.length

def parseNumber (l : List Char) : Option ((List Char × Option (List Char)) × List Char) :=
  let d := l.takeWhile isDigitC
  let r := l.dropWhile isDigitC
  if d.isEmpty then none
  else if r.head? = some '.' then
    let r2 := r.tail
    let f := r2.takeWhile isDigitC
    let r3 := r2.dropWhile isDigitC
    if f.isEmpty then none else some ((d, some f), r3)
  else some ((d, none), r)

/-- Python regex anchor $ (without re.M): it matches at the end of the string,
or just before a single trailing newline. -/
def matchDollarEnd (l : List Char) : Bool := l.isEmpty || l == ['\n']

def parse_trim (s : List Char) : Option (ℚ × ℚ) :=
  match parseNumber s with
  | none => none
  | some (n1, r1) =>
    if r1.head? = some 'x' then
      match parseNumber r1.tail with
      | none => none
      | some (n2, r3) =>
        if matchDollarEnd r3 then some (numVal n1.1 n1.2, numVal n2.1 n2.2) else none
    else none

def skipWs (l : List Char) : List Char := l.dropWhile isWsC

def parse_trim_cover (s : List Char) : Option (ℚ × ℚ) :=
  match parseNumber (skipWs (s.map lowerC)) with
  | none => none
  | some (n1, r1) =>
    if (skipWs r1).head? = some 'x' then
      match parseNumber (skipWs (skipWs r1).tail) with
      | none => none
      | some (n2, r3) =>
        if (skipWs r3).isEmpty then some (numVal n1.1 n1.2, numVal n2.1 n2.2) else none
    else none

def NumLitStr (d : List Char) (f : Option (List Char)) : List Char :=
  d ++ match f with | none => [] | some fr => '.' :: fr

def GoodFrac : Option (List Char) → Prop
  | none => True
  | some fr => fr ≠ [] ∧ ∀ c ∈ fr, isDigitC c = true

def GoodNum (d : List Char) (f : Option (List Char)) : Prop :=
  d ≠ [] ∧ (∀ c ∈ d, isDigitC c = true) ∧ GoodFrac f

def trimRender (d1 : List Char) (f1 : Option (List Char))
    (d2 : List Char) (f2 : Option (List Char)) : List Char :=
  NumLitStr d1 f1 ++ 'x' :: NumLitStr d2 f2

def TrimMatches (s : List Char) : Prop :=
  ∃ d1 f1 d2 f2, GoodNum d1 f1 ∧ GoodNum d2 f2 ∧ s = trimRender d1 f1 d2 f2

/-- Acceptance of the interior trim regex: the strict pattern, optionally
followed by one trailing newline (where the anchor $ also matches). -/
def TrimMatchesPy (s : List Char) : Prop :=
  TrimMatches s ∨ ∃ core, s = core ++ ['\n'] ∧ TrimMatches core

def AllWs (l : List Char) : Prop := ∀ c ∈ l, isWsC c = true

instance (f : Option (List Char)) : Decidable (GoodFrac f) := by
  unfold GoodFrac
  cases f <;> infer_instance

instance (d : List Char) (f : Option (List Char)) : Decidable (GoodNum d f) := by
  unfold GoodNum
  infer_instance

instance (l : List Char) : Decidable (AllWs l) := by
  unfold AllWs
  infer_instance

def coverRender (ws1 : List Char) (d1 : List Char) (f1 : Option (List Char)) (ws2 : List Char)
    (xc : Char) (ws3 : List Char) (d2 : List Char) (f2 : Option (List Char))
    (ws4 : List Char) : List Char :=
  ws1 ++ NumLitStr d1 f1 ++ ws2 ++ xc :: (ws3 ++ NumLitStr d2 f2 ++ ws4)

/-! ### Interior builder: page discovery and document assembly
(interior_builder.py lines 83-120) -/

def startsWithL : List Char → List Char → Bool
  | [], _ => true
  | _ :: _, [] => false
  | p :: ps, c :: cs => p == c && startsWithL ps cs

def endsWithL (p l : List Char) : Bool := startsWithL p.reverse l.reverse

def fbnpPre : List Char := ['f', 'b', 'n', 'p', '_']
def pngSuf : List Char := ['.', 'p', 'n', 'g']

def globFbnpPng (name : List Char) : Bool :=
  startsWithL fbnpPre name && endsWithL pngSuf name

def matchAtKey (l : List Char) : Option ℕ :=
  if startsWithL fbnpPre l then
    let rest := l.drop 5
    let d := rest.takeWhile isDigitC
    let r := rest.dropWhile isDigitC
    if d.isEmpty then none
    else if startsWithL pngSuf r then some (digitsVal d) else none
  else none

def searchKey : List Char → Option ℕ
  | [] => none
  | c :: t =>
    match matchAtKey (c :: t) with
    | some k => some k
    | none => searchKey t

def extractKeys : List (List Char) → Option (List ℕ)
  | [] => some []
  | n :: t =>
    match searchKey n, extractKeys t with
    | some k, some ks => some (k :: ks)
    | _, _ => none

def interiorKeys (listing : List (List Char)) : Option (List ℕ) :=
  extractKeys (listing.filter globFbnpPng)

def sortKeysAsc (ks : List ℕ) : List ℕ := List.insertionSort (· ≤ ·) ks

inductive IPage
  | belongsTo
  | copyright
  | coloring (idx : ℕ)
deriving DecidableEq

def build_interior_pages (listing : List (List Char)) : Option (List IPage) :=
  match interiorKeys listing with
  | none => none
  | some ks =>
    if ks.isEmpty then none
    else some (IPage.belongsTo :: IPage.copyright :: (sortKeysAsc ks).map IPage.coloring)


/-! ### Image model: pixels, canvases and the background step
(cover_builder.py lines 114-124, 258-276, 320-324) -/

abbrev Pixel := ℕ × ℕ × ℕ × ℕ

/-- PIL Image.convert from mode L to RGBA: each luminance v becomes (v, v, v, 255). -/
def convertLtoRGBA (img : List ℕ) : List Pixel := img.map (fun v => (v, v, v, 255))

/-- The alpha band art.split()[3]. -/
def alphaBand (l : List Pixel) : List ℕ := l.map (fun p => p.2.2.2)

/-- Setting channel j of each pixel from a band (the putchannel call of
cover_builder.py line 324, granting it Pillow set-channel semantics). -/
def putChannel (j : ℕ) (l : List Pixel) (band : List ℕ) : List Pixel :=
  l.zipWith
    (fun p c =>
      match j with
      | 0 => (c, p.2.1, p.2.2.1, p.2.2.2)
      | 1 => (p.1, c, p.2.2.1, p.2.2.2)
      | 2 => (p.1, p.2.1, c, p.2.2.2)
      | _ => (p.1, p.2.1, p.2.2.1, c))
    band

/-- ImageOps.autocontrast on an L image with cutoff 0: linear stretch of the
value range [lo, hi] onto [0, 255] (identity when hi = lo). -/
def autocontrastL (img : List ℕ) : List ℕ :=
  match img with
  | [] => []
  | _ =>
    let lo := img.foldl min 255
    let hi := img.foldl max 0
    if hi ≤ lo then img else img.map (fun v => ((v - lo) * 255) / (hi - lo))

/-- The recolouring of one interior image in build_cover, lines 320-324:
art = ImageOps.autocontrast(img); art = art.convert("RGBA");
for j in range(3): art.putchannel(j, art.split()[3]). -/
def recolorArt (img : List ℕ) : List Pixel :=
  [0, 1, 2].foldl (fun art j => putChannel j art (alphaBand art))
    (convertLtoRGBA (autocontrastL img))

structure Img (π : Type) where
  width : ℕ
  height : ℕ
  pix : ℕ → ℕ → π

abbrev RGB := ℕ × ℕ × ℕ

def imgNewRGBA (w h : ℕ) (color : Pixel) : Img Pixel := ⟨w, h, fun _ _ => color⟩

def convertRGB (im : Img Pixel) : Img RGB :=
  ⟨im.width, im.height, fun y x => ((im.pix y x).1, (im.pix y x).2.1, (im.pix y x).2.2.1)⟩

def convertRGBAofRGBA (im : Img Pixel) : Img Pixel := ⟨im.width, im.height, im.pix⟩

def muldiv255 (a b : ℕ) : ℕ := ((a * b + 128) / 256 + (a * b + 128)) / 256

def blendChan (m p1 p2 : ℕ) : ℕ := muldiv255 p1 (255 - m) + muldiv255 p2 m

def draw_gradient (bg : Img RGB) (top bottom : RGB) : Img RGB :=
  ⟨bg.width, bg.height, fun y _ =>
    let v := 255 * y / (max 1 (bg.height - 1))
    (blendChan v top.1 bottom.1, blendChan v top.2.1 bottom.2.1,
      blendChan v top.2.2 bottom.2.2)⟩

def hexDigitVal (c : Char) : ℕ :=
  if 48 ≤ c.toNat ∧ c.toNat ≤ 57 then c.toNat - 48
  else if 65 ≤ c.toNat ∧ c.toNat ≤ 70 then c.toNat - 55
  else if 97 ≤ c.toNat ∧ c.toNat ≤ 102 then c.toNat - 87
  else 0

def isHexC (c : Char) : Bool :=
  (48 ≤ c.toNat && c.toNat ≤ 57) || (65 ≤ c.toNat && c.toNat ≤ 70)
    || (97 ≤ c.toNat && c.toNat ≤ 102)

/-- Strip one trailing newline: the position where the regex anchor $ may
match in front of. -/
def stripNl (l : List Char) : List Char :=
  if l.getLast? = some '\n' then l.dropLast else l

/-- The regex of cover_builder.py line 271 for a solid colour background:
optional #, exactly six hex digits, then $ -- which also matches just before
a single trailing newline, so a trailing newline is accepted. -/
def hexMatch (bg : List Char) : Bool :=
  let s := stripNl bg
  let l := if s.head? = some '#' then s.tail else s
  l.length == 6 && l.all isHexC

/-- A 6-hex-digit colour with or without a leading #, as the claim words it
(no trailing newline). -/
def isHex6Color (bg : List Char) : Bool :=
  let l := if bg.head? = some '#' then bg.tail else bg
  l.length == 6 && l.all isHexC

/-- Model of Pillow ImageColor.getrgb restricted to the #RRGGBBAA fill strings
this call site can produce: a # followed by exactly eight hex digits; none
models the ValueError raised otherwise (for instance when the bg string
carried a trailing newline into the fill string). -/
def getrgba? (l : List Char) : Option Pixel :=
  if l.head? = some '#' then
    let t := l.tail
    if t.length = 8 ∧ t.all isHexC = true then
      some (16 * hexDigitVal (t.getD 0 '0') + hexDigitVal (t.getD 1 '0'),
        16 * hexDigitVal (t.getD 2 '0') + hexDigitVal (t.getD 3 '0'),
        16 * hexDigitVal (t.getD 4 '0') + hexDigitVal (t.getD 5 '0'),
        16 * hexDigitVal (t.getD 6 '0') + hexDigitVal (t.getD 7 '0'))
    else none
  else none

def colorOfHex (l : List Char) : RGB :=
  let h := if l.head? = some '#' then l.tail else l
  (16 * hexDigitVal (h.getD 0 '0') + hexDigitVal (h.getD 1 '0'),
   16 * hexDigitVal (h.getD 2 '0') + hexDigitVal (h.getD 3 '0'),
   16 * hexDigitVal (h.getD 4 '0') + hexDigitVal (h.getD 5 '0'))

def PASTEL_PALETTES : List (List Char × List Char) :=
  [(['#', 'F', 'D', 'F', '2', 'F', '8'], ['#', 'D', 'B', 'E', 'A', 'F', 'E']),
   (['#', 'F', 'D', 'E', '6', '8', 'A'], ['#', 'A', '7', 'F', '3', 'D', '0']),
   (['#', 'E', '9', 'D', '5', 'F', 'F'], ['#', 'B', 'F', 'D', 'B', 'F', 'E']),
   (['#', 'F', 'F', 'E', '4', 'E', '6'], ['#', 'F', 'E', 'F', '9', 'C', '3']),
   (['#', 'E', '0', 'F', '2', 'F', 'E'], ['#', 'D', 'C', 'F', 'C', 'E', '7'])]

def gradientPastelPre : List Char :=
  ['g', 'r', 'a', 'd', 'i', 'e', 'n', 't', ':', 'p', 'a', 's', 't', 'e', 'l']

def pastelSep : List Char := [':', 'p', 'a', 's', 't', 'e', 'l', ':']

def afterSub (sep : List Char) : List Char → List Char
  | [] => []
  | c :: t => if startsWithL sep (c :: t) then (c :: t).drop sep.length else afterSub sep t

def stripWsBoth (l : List Char) : List Char :=
  ((l.dropWhile isWsC).reverse.dropWhile isWsC).reverse

def pyInt? (l : List Char) : Option ℤ :=
  match stripWsBoth l with
  | [] => none
  | c :: t =>
    if c = '-' then (if !t.isEmpty && t.all isDigitC then some (-(digitsVal t : ℤ)) else none)
    else if c = '+' then (if !t.isEmpty && t.all isDigitC then some ((digitsVal t : ℤ)) else none)
    else if (c :: t).all isDigitC then some ((digitsVal (c :: t) : ℤ)) else none

def gradVariant (bg : List Char) : List Char := afterSub pastelSep bg

def gradIdx (bg : List Char) : ℤ :=
  match pyInt? (gradVariant bg) with
  | some n => max 0 (min ((PASTEL_PALETTES.length : ℤ) - 1) n)
  | none => 0

def fillCanvas (im : Img Pixel) (c : Pixel) : Img Pixel := ⟨im.width, im.height, fun _ _ => c⟩

/-- The background branch of build_cover, cover_builder.py lines 258-276.
In the gradient branch the source draws the gradient on the new image
returned by base.convert("RGB") and then rebinds base to
base.convert("RGBA"), so the gradient image is dropped and the canvas keeps
its initial white fill; the embedding mirrors that with a discarded let
binding.  In the hex branch the fill string is color + "ff" and getrgba?
models its parse by ImageColor; none models the ValueError that an embedded
trailing newline provokes. -/
def background_step (bg : List Char) (total : SizePx) : Option (Img Pixel) :=
  let base := imgNewRGBA total.w.toNat total.h.toNat (255, 255, 255, 255)
  if startsWithL gradientPastelPre bg then
    match PASTEL_PALETTES[(gradIdx bg).toNat]? with
    | none => none
    | some pal =>
      let rgbCopy := convertRGB base
      let _grad := draw_gradient rgbCopy (colorOfHex pal.1) (colorOfHex pal.2)
      some (convertRGBAofRGBA base)
  else if hexMatch bg then
    let color := if bg.head? = some '#' then bg else '#' :: bg
    match getrgba? (color ++ ['f', 'f']) with
    | none => none
    | some px => some (fillCanvas base px)
  else
    some (fillCanvas base (224, 242, 254, 255))

def gp1 : List Char :=
  ['g', 'r', 'a', 'd', 'i', 'e', 'n', 't', ':', 'p', 'a', 's', 't', 'e', 'l', ':', '1']


/-! ### Random generator model and the random part of build_cover
(cover_builder.py lines 161-176, 249-326) -/

/-- The state of the process-global generator of the random module. -/
structure RState where
  val : ℕ
deriving DecidableEq

/-- Model of the random module generator step: a deterministic 64-bit linear
congruential generator.  Only determinism of the stream as a function of the
seed or prior state matters to the builder. -/
def randStep (s : ℕ) : ℕ := (6364136223846793005 * s + 1442695040888963407) % (2 ^ 64)

/-- Model of random.seed(n): the global state becomes a function of n alone
(cover_builder.py lines 249-250). -/
def seedState (n : ℕ) : RState := ⟨randStep (n % 2 ^ 64)⟩

def nextNat (st : RState) : ℕ × RState :=
  let v := randStep st.val
  (v, ⟨v⟩)

/-- A draw of an index below n (n assumed positive). -/
def randbelow (n : ℕ) (st : RState) : ℕ × RState :=
  let p := nextNat st
  (p.1 % max 1 n, p.2)

/-- Model of random.randint(a, b): inclusive-range integer draw. -/
def py_randint (a b : ℤ) (st : RState) : ℤ × RState :=
  let p := nextNat st
  (a + ((p.1 % max 1 (b - a + 1).toNat : ℕ) : ℤ), p.2)

/-- Model of random.uniform(a, b): a + (b-a)*random() with random() in [0,1). -/
def py_uniform (a b : ℚ) (st : RState) : ℚ × RState :=
  let p := nextNat st
  (a + (b - a) * ((p.1 : ℚ) / 2 ^ 64), p.2)

/-- Model of random.shuffle: a permutation of the list driven by the
generator (pick an index below the remaining length, move that element to the
front, recurse on the rest); fuel equals the list length. -/
def shuffleGo {α : Type} : ℕ → List α → RState → List α × RState
  | 0, l, st => (l, st)
  | fuel + 1, l, st =>
    match l with
    | [] => ([], st)
    | a :: as =>
      let j := (randbelow (as.length + 1) st).1
      let st1 := (randbelow (as.length + 1) st).2
      let res := shuffleGo fuel ((a :: as).eraseIdx j) st1
      ((a :: as).getD j a :: res.1, res.2)

def shuffleL {α : Type} (l : List α) (st : RState) : List α × RState :=
  shuffleGo l.length l st

/-- Match of the end-anchored regex fbnp_(d+).png$ at the start of l
(cover_builder.py line 164). -/
def matchKeyEnd (l : List Char) : Option ℕ :=
  if startsWithL fbnpPre l then
    let rest := l.drop 5
    let d := rest.takeWhile isDigitC
    let r := rest.dropWhile isDigitC
    if d.isEmpty then none
    else if r = pngSuf then some (digitsVal d) else none
  else none

/-- re.search of the end-anchored pattern: first position with a match. -/
def searchKeyEnd : List Char → Option ℕ
  | [] => none
  | c :: t =>
    match matchKeyEnd (c :: t) with
    | some k => some k
    | none => searchKeyEnd t

/-- The discovery part of load_interior_images, cover_builder.py lines
162-168: glob fbnp_*.png, keep names matching fbnp_(d+).png$, sort by the
numeric key. -/
def cover_discover (listing : List (List Char)) : List ℕ :=
  sortKeysAsc ((listing.filter globFbnpPng).filterMap searchKeyEnd)

/-- Function load_interior_images, cover_builder.py lines 161-176: error when
no file is discovered, otherwise k = max(2, min(max_images, len(files))),
shuffle the head window files[:min(6, len(files))], return its first k. -/
def load_interior_images (listing : List (List Char)) (max_images : ℕ) (st : RState) :
    Option (List ℕ) × RState :=
  let files := cover_discover listing
  if files.isEmpty then (none, st)
  else
    let k := max 2 (min max_images files.length)
    let head := files.take (min 6 files.length)
    let sh := shuffleL head st
    (some (sh.1.take k), sh.2)

/-- A well-formed interior file name fbnp_<digits>.png. -/
def exampleName (ds : List Char) : List Char := fbnpPre ++ ds ++ pngSuf

def listingTen : List (List Char) :=
  [exampleName ['1'], exampleName ['2'], exampleName ['3'], exampleName ['4'],
   exampleName ['5'], exampleName ['6'], exampleName ['7'], exampleName ['8'],
   exampleName ['9'], exampleName ['1', '0']]

def listingThree : List (List Char) :=
  [exampleName ['7'], exampleName ['2'], exampleName ['5']]

abbrev Box := ℤ × ℤ × ℤ × ℤ

/-- Function random_boxes inside build_cover, cover_builder.py lines 292-306:
a 2x3 grid of jittered boxes over the panel, then shuffled.  Python floor
division is Int.fdiv; int(cell*0.8) is pyTrunc. -/
def random_boxes (panel_x0 panel_x1 bleed_px total_h : ℤ) (st : RState) :
    List Box × RState :=
  let cell_w := Int.fdiv (panel_x1 - panel_x0) 3
  let cell_h := Int.fdiv total_h 2
  let gen := [((0 : ℤ), (0 : ℤ)), (0, 1), (0, 2), (1, 0), (1, 1), (1, 2)].foldl
    (fun acc rc =>
      let p1 := py_randint (Int.fdiv (-cell_w) 10) (Int.fdiv cell_w 10) acc.2
      let p2 := py_randint (Int.fdiv (-cell_h) 10) (Int.fdiv cell_h 10) p1.2
      let x0 := panel_x0 + rc.2 * cell_w + p1.1
      let y0 := bleed_px + rc.1 * cell_h + p2.1
      let w := pyTrunc ((cell_w : ℚ) * (8 / 10))
      let h := pyTrunc ((cell_h : ℚ) * (8 / 10))
      (acc.1 ++ [(x0, y0, x0 + w, y0 + h)], p2.2))
    (([] : List Box), st)
  shuffleL gen.1 gen.2

abbrev Placement := ℕ × Box × ℚ

/-- The placement loop of build_cover, lines 311-326: for image i draw an
angle with uniform(-15, 15), pop the last box from the front list when i is
even (or when the back list is empty) and from the back list otherwise; none
models the IndexError of popping from an empty list. -/
def placeLoop : List ℕ → ℕ → List Box → List Box → RState →
    Option (List Placement) × RState
  | [], _, _, _, st => (some [], st)
  | k :: rest, i, frontB, backB, st =>
    let u := py_uniform (-15) 15 st
    let fromFront := decide (i % 2 = 0) || backB.isEmpty
    let target := if fromFront then frontB else backB
    match target.getLast? with
    | none => (none, u.2)
    | some box =>
      let target2 := target.dropLast
      let frontB2 := if fromFront then target2 else frontB
      let backB2 := if fromFront then backB else target2
      let res := placeLoop rest (i + 1) frontB2 backB2 u.2
      (Option.map (fun t => (k, box, u.1) :: t) res.1, res.2)

/-- The pseudo-random part of build_cover, cover_builder.py lines 249-326:
seed handling, geometry, image selection, the two box grids, and the
angle/box assignment for every placed sheet.  The returned plan carries the
selected image keys with their boxes and rotation angles. -/
def coverPlan (trim_w_in trim_h_in : ℚ) (pages : ℤ) (paper : Paper) (max_images : ℕ)
    (listing : List (List Char)) (seed : Option ℕ) (g : RState) :
    Option (List Placement) × RState :=
  let st0 := match seed with
    | some s => seedState s
    | none => g
  let geom := compute_dimensions trim_w_in trim_h_in pages paper
  let bleed_px := inches_to_px BLEED_IN
  let left_x0 := bleed_px
  let left_x1 := left_x0 + geom.2.1.w
  let right_x0 := left_x1 + geom.2.2
  let right_x1 := right_x0 + geom.2.1.w
  let loaded := load_interior_images listing max_images st0
  match loaded with
  | (none, st1) => (none, st1)
  | (some sel, st1) =>
    let fb := random_boxes right_x0 right_x1 bleed_px geom.1.h st1
    let bb := random_boxes left_x0 left_x1 bleed_px geom.1.h fb.2
    let res := placeLoop sel 0 fb.1 bb.1 bb.2
    (res.1, res.2)

/-! ### Rounding lemmas -/

theorem pyRound_sub_le (q : ℚ) : |(pyRound q : ℚ) - q| ≤ 1/2 := by
  have h1 : (⌊q⌋ : ℚ) ≤ q := Int.floor_le q
  have h2 : q < ⌊q⌋ + 1 := Int.lt_floor_add_one q
  unfold pyRound
  split_ifs <;> push_cast <;> rw [abs_le] <;> constructor <;> linarith

theorem floor_le_pyRound (q : ℚ) : ⌊q⌋ ≤ pyRound q := by
  unfold pyRound; split_ifs <;> omega

theorem pyRound_le_floor_add_one (q : ℚ) : pyRound q ≤ ⌊q⌋ + 1 := by
  unfold pyRound; split_ifs <;> omega

theorem pyRound_mono {a b : ℚ} (h : a ≤ b) : pyRound a ≤ pyRound b := by
  rcases lt_or_eq_of_le (Int.floor_mono h) with hlt | heq
  · have := pyRound_le_floor_add_one a
    have := floor_le_pyRound b
    omega
  · have h1 : (⌊a⌋ : ℚ) ≤ a := Int.floor_le a
    have h2 : b < ⌊b⌋ + 1 := Int.lt_floor_add_one b
    unfold pyRound
    rw [heq]
    split_ifs <;> try omega
    all_goals (exfalso; rw [heq] at h1; push_cast at *; linarith)

theorem pyRound_zero : pyRound 0 = 0 := by norm_num [pyRound]

/-- Splitting one rounding of a sum into the sum of the individually rounded
parts moves the result by at most three. -/
theorem pyRound_split_bound (a b c : ℚ) :
    |pyRound (a + a + b + b + c) - (2 * pyRound a + 2 * pyRound b + pyRound c)| ≤ 3 := by
  have hT := pyRound_sub_le (a + a + b + b + c)
  have hA := pyRound_sub_le a
  have hB := pyRound_sub_le b
  have hC := pyRound_sub_le c
  rw [abs_le] at hT hA hB hC
  rw [abs_le]
  constructor
  · have : ((-3 : ℚ)) ≤ ((pyRound (a + a + b + b + c)
        - (2 * pyRound a + 2 * pyRound b + pyRound c) : ℤ) : ℚ) := by
      push_cast
      linarith
    exact_mod_cast this
  · have : ((pyRound (a + a + b + b + c)
        - (2 * pyRound a + 2 * pyRound b + pyRound c) : ℤ) : ℚ) ≤ 3 := by
      push_cast
      linarith
    exact_mod_cast this

theorem thickness_nonneg (paper : Paper) : 0 ≤ PAPER_THICKNESS paper := by
  cases paper <;> norm_num [PAPER_THICKNESS]

/-! ### Claim C3 -/

/-- Claim C3, counterexample: at trim 8.5x11, 30 pages, white paper, the total
canvas width returned by compute_dimensions is 5195 px, while
2*bleed_px + 2*trim_width_px + spine_px computed from the returned components
is 5196 px, so the claimed exact integer identity fails. -/
theorem compute_dimensions_width_identity_fails :
    (compute_dimensions (17/2) 11 30 Paper.white).1.w = 5195 ∧
    2 * inches_to_px BLEED_IN + 2 * (compute_dimensions (17/2) 11 30 Paper.white).2.1.w +
      (compute_dimensions (17/2) 11 30 Paper.white).2.2 = 5196 ∧
    (5195 : ℤ) ≠ 5196 := by
  refine ⟨?_, ?_, by decide⟩ <;>
    norm_num [compute_dimensions, inches_to_px, pyRound, BLEED_IN, DPI, PAPER_THICKNESS]

/-- Claim C3, amended: the total canvas width is the rounding of the exact
total inches 2*bleed + 2*trim_width + spine_inches (one rounding of the sum),
and it differs from 2*bleed_px + 2*trim_width_px + spine_px -- the sum of the
individually rounded components -- by at most 3 pixels, not exactly 0. -/
theorem compute_dimensions_width_near_identity (tw th : ℚ) (pages : ℤ) (paper : Paper) :
    |(compute_dimensions tw th pages paper).1.w -
      (2 * inches_to_px BLEED_IN + 2 * (compute_dimensions tw th pages paper).2.1.w +
        (compute_dimensions tw th pages paper).2.2)| ≤ 3 ∧
    (compute_dimensions tw th pages paper).1.w =
      inches_to_px (BLEED_IN * 2 + tw * 2 + PAPER_THICKNESS paper * (pages : ℚ)) := by
  refine ⟨?_, rfl⟩
  simp only [compute_dimensions, inches_to_px]
  have harg : (BLEED_IN * 2 + tw * 2 + PAPER_THICKNESS paper * (pages : ℚ)) * DPI
      = BLEED_IN * DPI + BLEED_IN * DPI + tw * DPI + tw * DPI
        + PAPER_THICKNESS paper * (pages : ℚ) * DPI := by ring
  rw [harg]
  exact pyRound_split_bound (BLEED_IN * DPI) (tw * DPI) (PAPER_THICKNESS paper * (pages : ℚ) * DPI)

/-! ### Claim C9 -/

/-- Claim C9: for every valid paper type and page counts 0 <= p1 <= p2, the
spine pixel width computed by compute_dimensions is non-negative and
monotonically non-decreasing in the page count. -/
theorem spine_px_nonneg_mono (tw th : ℚ) (paper : Paper) (p1 p2 : ℤ)
    (h0 : 0 ≤ p1) (h : p1 ≤ p2) :
    0 ≤ (compute_dimensions tw th p1 paper).2.2 ∧
    (compute_dimensions tw th p1 paper).2.2 ≤ (compute_dimensions tw th p2 paper).2.2 := by
  have hth := thickness_nonneg paper
  constructor
  · simp only [compute_dimensions, inches_to_px]
    have h1 : (0:ℚ) ≤ PAPER_THICKNESS paper * (p1 : ℚ) * DPI := by
      have hp : (0:ℚ) ≤ (p1 : ℚ) := by exact_mod_cast h0
      have hD : (0:ℚ) ≤ DPI := by norm_num [DPI]
      positivity
    have := pyRound_mono h1
    rw [pyRound_zero] at this
    omega
  · simp only [compute_dimensions, inches_to_px]
    apply pyRound_mono
    have hc : (p1 : ℚ) ≤ (p2 : ℚ) := by exact_mod_cast h
    have hD : (0:ℚ) ≤ DPI := by norm_num [DPI]
    apply mul_le_mul_of_nonneg_right _ hD
    exact mul_le_mul_of_nonneg_left hc hth

/-- Witness for spine_px_nonneg_mono at trim 8.5x11, white paper, 10 and 20 pages. -/
theorem spine_px_nonneg_mono_witness :
    0 ≤ (compute_dimensions (17/2) 11 10 Paper.white).2.2 ∧
    (compute_dimensions (17/2) 11 10 Paper.white).2.2 ≤
      (compute_dimensions (17/2) 11 20 Paper.white).2.2 :=
  spine_px_nonneg_mono (17/2) 11 Paper.white 10 20 (by decide) (by decide)

/-! ### Claim C5 -/

/-- Claim C5: spine text is rendered iff a non-empty spine title is supplied,
the page count is at least 79, and the computed spine pixel width is positive;
in particular no spine text is rendered for page counts below 79. -/
theorem spine_render_characterization (tw th : ℚ) (pages : ℤ) (paper : Paper)
    (spineTitle : Option (List Char)) :
    (build_renders_spine tw th pages paper spineTitle = true ↔
      (∃ t, spineTitle = some t ∧ t ≠ []) ∧ 79 ≤ pages ∧
        0 < (compute_dimensions tw th pages paper).2.2) ∧
    (pages < 79 → build_renders_spine tw th pages paper spineTitle = false) := by
  constructor
  · unfold build_renders_spine spine_text_rendered pyTruthy
    cases spineTitle with
    | none => simp
    | some t =>
      simp only [Bool.and_eq_true, Bool.not_eq_true', decide_eq_true_eq, List.isEmpty_eq_false]
      constructor
      · rintro ⟨⟨hne, hp⟩, hs⟩
        exact ⟨⟨t, rfl, by simpa using hne⟩, hp, hs⟩
      · rintro ⟨⟨u, hu, hne⟩, hp, hs⟩
        cases hu
        exact ⟨⟨by simpa using hne, hp⟩, hs⟩
  · intro hlt
    unfold build_renders_spine spine_text_rendered
    have : (decide (79 ≤ pages)) = false := by simp; omega
    simp [this]

/-- Witness for spine_render_characterization: a spine title supplied with 30
pages yields no spine text. -/
theorem spine_render_characterization_witness :
    build_renders_spine (17/2) 11 30 Paper.white (some ['T']) = false :=
  (spine_render_characterization (17/2) 11 30 Paper.white (some ['T'])).2 (by decide)

/-! ### Claim C8: trim parsing -/

theorem takeWhile_append_of (p : Char → Bool) (a b : List Char)
    (ha : ∀ c ∈ a, p c = true) (hb : ∀ c, b.head? = some c → p c = false) :
    (a ++ b).takeWhile p = a ∧ (a ++ b).dropWhile p = b := by
  induction a with
  | nil =>
    simp only [List.nil_append]
    cases b with
    | nil => simp
    | cons c t =>
      have := hb c rfl
      simp [List.takeWhile_cons, List.dropWhile_cons, this]
  | cons c a ih =>
    have hc := ha c (by simp)
    have ha' : ∀ x ∈ a, p x = true := fun x hx => ha x (by simp [hx])
    have h := ih ha'
    simp [List.takeWhile_cons, List.dropWhile_cons, hc, h.1, h.2]

theorem dropWhile_head_false (p : Char → Bool) (l : List Char) (c : Char)
    (h : (l.dropWhile p).head? = some c) : p c = false := by
  induction l with
  | nil => simp at h
  | cons a t ih =>
    by_cases hp : p a
    · rw [List.dropWhile_cons, if_pos hp] at h; exact ih h
    · rw [List.dropWhile_cons, if_neg hp] at h
      simp only [List.head?_cons, Option.some.injEq] at h
      subst h
      simpa using hp

theorem parseNumber_complete (d : List Char) (f : Option (List Char)) (rest : List Char)
    (hg : GoodNum d f)
    (hr : ∀ c, rest.head? = some c → isDigitC c = false ∧ c ≠ '.') :
    parseNumber (NumLitStr d f ++ rest) = some ((d, f), rest) := by
  obtain ⟨hd, hdd, hf⟩ := hg
  cases f with
  | none =>
    have h1 := takeWhile_append_of isDigitC d rest hdd (fun c hc => (hr c hc).1)
    simp only [NumLitStr, List.append_nil]
    unfold parseNumber
    rw [h1.1, h1.2]
    rw [if_neg (by simpa [List.isEmpty_eq_false] using hd)]
    rw [if_neg ?hdot]
    case hdot =>
      intro hc
      cases rest with
      | nil => simp at hc
      | cons c t =>
        simp only [List.head?_cons, Option.some.injEq] at hc
        exact (hr c rfl).2 hc
  | some fr =>
    obtain ⟨hfr, hfrd⟩ := hf
    have hdot : ∀ c, (('.' :: (fr ++ rest)).head?) = some c → isDigitC c = false := by
      intro c hc
      simp only [List.head?_cons, Option.some.injEq] at hc
      subst hc; decide
    have h1 := takeWhile_append_of isDigitC d ('.' :: (fr ++ rest)) hdd hdot
    have h2 := takeWhile_append_of isDigitC fr rest hfrd (fun c hc => (hr c hc).1)
    simp only [NumLitStr]
    have hassoc : d ++ ('.' :: fr) ++ rest = d ++ ('.' :: (fr ++ rest)) := by simp
    rw [hassoc]
    unfold parseNumber
    rw [h1.1, h1.2]
    rw [if_neg (by simpa [List.isEmpty_eq_false] using hd)]
    rw [if_pos (by simp)]
    simp only [List.tail_cons]
    rw [h2.1, h2.2]
    rw [if_neg (by simpa [List.isEmpty_eq_false] using hfr)]

theorem parseNumber_sound {l : List Char} {d : List Char} {f : Option (List Char)} {r : List Char}
    (h : parseNumber l = some ((d, f), r)) :
    GoodNum d f ∧ l = NumLitStr d f ++ r ∧ (∀ c, r.head? = some c → isDigitC c = false) := by
  unfold parseNumber at h
  by_cases he : (l.takeWhile isDigitC).isEmpty
  · rw [if_pos he] at h; exact absurd h (by simp)
  · rw [if_neg he] at h
    simp only [Bool.not_eq_true, List.isEmpty_eq_false] at he
    by_cases hdot : (l.dropWhile isDigitC).head? = some '.'
    · rw [if_pos hdot] at h
      by_cases hfe : (((l.dropWhile isDigitC).tail).takeWhile isDigitC).isEmpty
      · rw [if_pos hfe] at h; exact absurd h (by simp)
      · rw [if_neg hfe] at h
        simp only [Bool.not_eq_true, List.isEmpty_eq_false] at hfe
        simp only [Option.some.injEq, Prod.mk.injEq] at h
        obtain ⟨⟨hd', hf'⟩, hr'⟩ := h
        subst hd'; subst hf'; subst hr'
        obtain ⟨a, t, hL⟩ : ∃ a t, l.dropWhile isDigitC = a :: t := by
          cases hcc : l.dropWhile isDigitC with
          | nil => rw [hcc] at hdot; simp at hdot
          | cons a t => exact ⟨a, t, rfl⟩
        rw [hL] at hdot
        simp only [List.head?_cons, Option.some.injEq] at hdot
        subst hdot
        refine ⟨⟨he, fun c hc => List.mem_takeWhile_imp hc,
          ⟨hfe, fun c hc => List.mem_takeWhile_imp hc⟩⟩, ?_, ?_⟩
        · conv_lhs => rw [← List.takeWhile_append_dropWhile isDigitC l]
          rw [hL]
          simp only [NumLitStr, List.tail_cons]
          conv_lhs => rw [← List.takeWhile_append_dropWhile isDigitC t]
          simp
        · intro c hc
          rw [hL] at hc
          simp only [List.tail_cons] at hc
          exact dropWhile_head_false isDigitC t c hc
    · rw [if_neg hdot] at h
      simp only [Option.some.injEq, Prod.mk.injEq] at h
      obtain ⟨⟨hd', hf'⟩, hr'⟩ := h
      subst hd'; subst hr'
      cases hf'
      refine ⟨⟨he, fun c hc => List.mem_takeWhile_imp hc, trivial⟩, ?_, ?_⟩
      · simp only [NumLitStr, List.append_nil]
        exact (List.takeWhile_append_dropWhile isDigitC l).symm
      · intro c hc
        exact dropWhile_head_false isDigitC l c hc

theorem parse_trim_complete (d1 : List Char) (f1 : Option (List Char))
    (d2 : List Char) (f2 : Option (List Char))
    (hg1 : GoodNum d1 f1) (hg2 : GoodNum d2 f2) :
    parse_trim (trimRender d1 f1 d2 f2) = some (numVal d1 f1, numVal d2 f2) := by
  have h1 := parseNumber_complete d1 f1 ('x' :: NumLitStr d2 f2) hg1 (by
    intro c hc
    simp only [List.head?_cons, Option.some.injEq] at hc
    subst hc
    exact ⟨by decide, by decide⟩)
  have h2 : parseNumber (NumLitStr d2 f2) = some ((d2, f2), []) := by
    have := parseNumber_complete d2 f2 [] hg2 (by intro c hc; simp at hc)
    simpa using this
  unfold parse_trim trimRender
  rw [h1]
  simp only [List.head?_cons, List.tail_cons, if_pos rfl]
  rw [h2]
  simp [matchDollarEnd]

theorem matchDollarEnd_iff (l : List Char) :
    matchDollarEnd l = true ↔ l = [] ∨ l = ['\n'] := by
  unfold matchDollarEnd
  simp [List.isEmpty_iff]

/-- Completeness of parse_trim on a pattern instance followed by the single
trailing newline the regex anchor $ tolerates. -/
theorem parse_trim_complete_nl (d1 : List Char) (f1 : Option (List Char))
    (d2 : List Char) (f2 : Option (List Char))
    (hg1 : GoodNum d1 f1) (hg2 : GoodNum d2 f2) :
    parse_trim (trimRender d1 f1 d2 f2 ++ ['\n'])
      = some (numVal d1 f1, numVal d2 f2) := by
  have h1 := parseNumber_complete d1 f1 ('x' :: (NumLitStr d2 f2 ++ ['\n'])) hg1 (by
    intro c hc
    simp only [List.head?_cons, Option.some.injEq] at hc
    subst hc
    exact ⟨by decide, by decide⟩)
  have h2 := parseNumber_complete d2 f2 ['\n'] hg2 (by
    intro c hc
    simp only [List.head?_cons, Option.some.injEq] at hc
    subst hc
    exact ⟨by decide, by decide⟩)
  have hs : trimRender d1 f1 d2 f2 ++ ['\n']
      = NumLitStr d1 f1 ++ ('x' :: (NumLitStr d2 f2 ++ ['\n'])) := by
    simp [trimRender]
  rw [hs]
  unfold parse_trim
  rw [h1]
  simp only [List.head?_cons, List.tail_cons, if_pos rfl]
  rw [h2]
  simp [matchDollarEnd]

theorem parse_trim_sound {s : List Char} {v : ℚ × ℚ} (h : parse_trim s = some v) :
    TrimMatchesPy s := by
  unfold parse_trim at h
  cases hpn : parseNumber s with
  | none => rw [hpn] at h; exact absurd h (by simp)
  | some p =>
    obtain ⟨⟨d1, f1⟩, r1⟩ := p
    rw [hpn] at h
    dsimp only at h
    by_cases hx : r1.head? = some 'x'
    · rw [if_pos hx] at h
      cases hpn2 : parseNumber r1.tail with
      | none => rw [hpn2] at h; exact absurd h (by simp)
      | some q =>
        obtain ⟨⟨d2, f2⟩, r3⟩ := q
        rw [hpn2] at h
        dsimp only at h
        by_cases hre : matchDollarEnd r3 = true
        · obtain ⟨g1, hs1, _⟩ := parseNumber_sound hpn
          obtain ⟨g2, hs2, _⟩ := parseNumber_sound hpn2
          obtain ⟨a, t, hr1⟩ : ∃ a t, r1 = a :: t := by
            cases r1 with
            | nil => simp at hx
            | cons a t => exact ⟨a, t, rfl⟩
          rw [hr1] at hx
          simp only [List.head?_cons, Option.some.injEq] at hx
          subst hx
          rw [hr1] at hs2
          simp only [List.tail_cons] at hs2
          rcases (matchDollarEnd_iff r3).mp hre with hnil | hnl
          · subst hnil
            refine Or.inl ⟨d1, f1, d2, f2, g1, g2, ?_⟩
            simp only [List.append_nil] at hs2
            rw [hs1, hr1, hs2]
            simp [trimRender]
          · subst hnl
            refine Or.inr ⟨trimRender d1 f1 d2 f2, ?_, d1, f1, d2, f2, g1, g2, rfl⟩
            rw [hs1, hr1, hs2]
            simp [trimRender]
        · rw [if_neg hre] at h
          exact absurd h (by simp)
    · rw [if_neg hx] at h
      exact absurd h (by simp)

theorem TrimMatches_isSome {s : List Char} (h : TrimMatches s) : (parse_trim s).isSome := by
  obtain ⟨d1, f1, d2, f2, g1, g2, rfl⟩ := h
  rw [parse_trim_complete d1 f1 d2 f2 g1 g2]
  rfl

theorem digit_not_ws {c : Char} (h : isDigitC c = true) : isWsC c = false := by
  simp only [isDigitC, Bool.and_eq_true, decide_eq_true_eq] at h
  simp only [isWsC, Bool.or_eq_false_iff, decide_eq_false_iff_not]
  omega

theorem ws_not_digit {c : Char} (h : isWsC c = true) : isDigitC c = false := by
  simp only [isWsC, Bool.or_eq_true, decide_eq_true_eq] at h
  simp only [isDigitC, Bool.and_eq_false_iff, decide_eq_false_iff_not]
  omega

theorem ws_ne_dot {c : Char} (h : isWsC c = true) : c ≠ '.' := by
  intro hc
  subst hc
  exact absurd h (by decide)

theorem lowerC_of_digit {c : Char} (h : isDigitC c = true) : lowerC c = c := by
  simp only [isDigitC, Bool.and_eq_true, decide_eq_true_eq] at h
  unfold lowerC
  rw [if_neg (by omega)]

theorem lowerC_of_ws {c : Char} (h : isWsC c = true) : lowerC c = c := by
  simp only [isWsC, Bool.or_eq_true, decide_eq_true_eq] at h
  unfold lowerC
  rw [if_neg (by omega)]

theorem map_lowerC_eq_self (l : List Char) (h : ∀ c ∈ l, lowerC c = c) :
    l.map lowerC = l := by
  induction l with
  | nil => rfl
  | cons a t ih =>
    simp only [List.map_cons, h a (by simp), ih (fun c hc => h c (by simp [hc]))]

theorem map_lowerC_numLit (d : List Char) (f : Option (List Char)) (hg : GoodNum d f) :
    (NumLitStr d f).map lowerC = NumLitStr d f := by
  obtain ⟨_, hdd, hf⟩ := hg
  apply map_lowerC_eq_self
  intro c hc
  simp only [NumLitStr, List.mem_append] at hc
  rcases hc with hc | hc
  · exact lowerC_of_digit (hdd c hc)
  · cases f with
    | none => simp at hc
    | some fr =>
      simp only [List.mem_cons] at hc
      rcases hc with hc | hc
      · subst hc; decide
      · exact lowerC_of_digit (hf.2 c hc)

theorem allWs_lower_eq (ws : List Char) (h : AllWs ws) : ws.map lowerC = ws :=
  map_lowerC_eq_self ws (fun c hc => lowerC_of_ws (h c hc))

theorem skipWs_append_of (ws b : List Char) (h : AllWs ws)
    (hb : ∀ c, b.head? = some c → isWsC c = false) : skipWs (ws ++ b) = b :=
  (takeWhile_append_of isWsC ws b h hb).2

theorem skipWs_of_allWs (ws : List Char) (h : AllWs ws) : skipWs ws = [] := by
  have := skipWs_append_of ws [] h (by intro c hc; simp at hc)
  simpa using this

theorem numLit_append_head (d : List Char) (f : Option (List Char)) (rest : List Char)
    (hg : GoodNum d f) :
    ∀ c, ((NumLitStr d f) ++ rest).head? = some c → isDigitC c = true := by
  obtain ⟨hd, hdd, _⟩ := hg
  cases d with
  | nil => exact absurd rfl hd
  | cons e t =>
    intro c hc
    simp only [NumLitStr, List.cons_append, List.head?_cons, Option.some.injEq] at hc
    subst hc
    exact hdd e (by simp)

theorem head_mem_of_head? {l : List Char} {c : Char} (h : l.head? = some c) : c ∈ l := by
  cases l with
  | nil => simp at h
  | cons a t =>
    simp only [List.head?_cons, Option.some.injEq] at h
    subst h
    simp

theorem parse_trim_cover_complete
    (ws1 ws2 ws3 ws4 : List Char) (xc : Char) (d1 : List Char) (f1 : Option (List Char))
    (d2 : List Char) (f2 : Option (List Char))
    (h1 : AllWs ws1) (h2 : AllWs ws2) (h3 : AllWs ws3) (h4 : AllWs ws4)
    (hx : lowerC xc = 'x') (hg1 : GoodNum d1 f1) (hg2 : GoodNum d2 f2) :
    parse_trim_cover (coverRender ws1 d1 f1 ws2 xc ws3 d2 f2 ws4)
      = some (numVal d1 f1, numVal d2 f2) := by
  have hmap : (coverRender ws1 d1 f1 ws2 xc ws3 d2 f2 ws4).map lowerC
      = ws1 ++ (NumLitStr d1 f1 ++ (ws2 ++ ('x' :: (ws3 ++ (NumLitStr d2 f2 ++ ws4))))) := by
    unfold coverRender
    simp only [List.map_append, List.map_cons, allWs_lower_eq ws1 h1, allWs_lower_eq ws2 h2,
      allWs_lower_eq ws3 h3, allWs_lower_eq ws4 h4, map_lowerC_numLit d1 f1 hg1,
      map_lowerC_numLit d2 f2 hg2, hx]
    simp [List.append_assoc]
  have hskip1 : skipWs ((coverRender ws1 d1 f1 ws2 xc ws3 d2 f2 ws4).map lowerC)
      = NumLitStr d1 f1 ++ (ws2 ++ ('x' :: (ws3 ++ (NumLitStr d2 f2 ++ ws4)))) := by
    rw [hmap]
    exact skipWs_append_of _ _ h1
      (fun c hc => digit_not_ws (numLit_append_head d1 f1 _ hg1 c hc))
  have hpn1 : parseNumber (NumLitStr d1 f1 ++ (ws2 ++ ('x' :: (ws3 ++ (NumLitStr d2 f2 ++ ws4)))))
      = some ((d1, f1), ws2 ++ ('x' :: (ws3 ++ (NumLitStr d2 f2 ++ ws4)))) := by
    apply parseNumber_complete _ _ _ hg1
    intro c hc
    cases ws2 with
    | nil =>
      simp only [List.nil_append, List.head?_cons, Option.some.injEq] at hc
      subst hc
      exact ⟨by decide, by decide⟩
    | cons w t =>
      simp only [List.cons_append, List.head?_cons, Option.some.injEq] at hc
      have hw := h2 w (by simp)
      rw [← hc]
      exact ⟨ws_not_digit hw, ws_ne_dot hw⟩
  have hskip2 : skipWs (ws2 ++ ('x' :: (ws3 ++ (NumLitStr d2 f2 ++ ws4))))
      = 'x' :: (ws3 ++ (NumLitStr d2 f2 ++ ws4)) := by
    apply skipWs_append_of _ _ h2
    intro c hc
    simp only [List.head?_cons, Option.some.injEq] at hc
    subst hc
    decide
  have hskip3 : skipWs (ws3 ++ (NumLitStr d2 f2 ++ ws4)) = NumLitStr d2 f2 ++ ws4 := by
    apply skipWs_append_of _ _ h3
    exact fun c hc => digit_not_ws (numLit_append_head d2 f2 _ hg2 c hc)
  have hpn2 : parseNumber (NumLitStr d2 f2 ++ ws4) = some ((d2, f2), ws4) := by
    apply parseNumber_complete _ _ _ hg2
    intro c hc
    have hw := h4 c (head_mem_of_head? hc)
    exact ⟨ws_not_digit hw, ws_ne_dot hw⟩
  unfold parse_trim_cover
  rw [hskip1, hpn1]
  dsimp only
  rw [hskip2]
  simp only [List.head?_cons, if_true]
  dsimp only [List.tail_cons]
  rw [hskip3, hpn2]
  dsimp only
  rw [skipWs_of_allWs ws4 h4]
  simp

/-- Claim C8 (amended): interior_builder's parse_trim succeeds exactly on the
pattern instances optionally followed by one trailing newline (where the
regex anchor $ also matches) -- so it raises invalid-argument exactly outside
that acceptance -- and on success it returns exactly the two numeric values
written; cover_builder's parse_trim additionally accepts whitespace-padded
and uppercase-X variants, returning the same two values. -/
theorem parse_trim_characterization (s : List Char) :
    ((∃ v, parse_trim s = some v) ↔ TrimMatchesPy s) ∧
    (∀ d1 f1 d2 f2, GoodNum d1 f1 → GoodNum d2 f2 →
      (s = trimRender d1 f1 d2 f2 ∨ s = trimRender d1 f1 d2 f2 ++ ['\n']) →
      parse_trim s = some (numVal d1 f1, numVal d2 f2)) ∧
    (∀ ws1 ws2 ws3 ws4 xc d1 f1 d2 f2, AllWs ws1 → AllWs ws2 → AllWs ws3 → AllWs ws4 →
      lowerC xc = 'x' → GoodNum d1 f1 → GoodNum d2 f2 →
      s = coverRender ws1 d1 f1 ws2 xc ws3 d2 f2 ws4 →
      parse_trim_cover s = some (numVal d1 f1, numVal d2 f2)) := by
  have hcompl : ∀ d1 f1 d2 f2, GoodNum d1 f1 → GoodNum d2 f2 →
      (s = trimRender d1 f1 d2 f2 ∨ s = trimRender d1 f1 d2 f2 ++ ['\n']) →
      parse_trim s = some (numVal d1 f1, numVal d2 f2) := by
    rintro d1 f1 d2 f2 g1 g2 (rfl | rfl)
    · exact parse_trim_complete d1 f1 d2 f2 g1 g2
    · exact parse_trim_complete_nl d1 f1 d2 f2 g1 g2
  refine ⟨⟨?_, ?_⟩, hcompl, ?_⟩
  · rintro ⟨v, hv⟩
    exact parse_trim_sound hv
  · intro hm
    rcases hm with ⟨d1, f1, d2, f2, g1, g2, hs⟩ | ⟨core, hsc, d1, f1, d2, f2, g1, g2, hc⟩
    · exact ⟨_, hcompl d1 f1 d2 f2 g1 g2 (Or.inl hs)⟩
    · exact ⟨_, hcompl d1 f1 d2 f2 g1 g2 (Or.inr (by rw [hsc, hc]))⟩
  · intro ws1 ws2 ws3 ws4 xc d1 f1 d2 f2 a1 a2 a3 a4 hx g1 g2 hs
    subst hs
    exact parse_trim_cover_complete ws1 ws2 ws3 ws4 xc d1 f1 d2 f2 a1 a2 a3 a4 hx g1 g2

/-- Witness for parse_trim_characterization at a strict pattern instance, a
pattern instance with a trailing newline, and a padded uppercase cover form. -/
theorem parse_trim_characterization_witness :
    parse_trim ['8', '.', '5', 'x', '1', '1']
      = some (numVal ['8'] (some ['5']), numVal ['1', '1'] none) ∧
    parse_trim ['8', 'x', '9', '\n']
      = some (numVal ['8'] none, numVal ['9'] none) ∧
    parse_trim_cover [' ', '8', '.', '5', 'X', '1', '1', ' ']
      = some (numVal ['8'] (some ['5']), numVal ['1', '1'] none) := by
  refine ⟨?_, ?_, ?_⟩
  · exact (parse_trim_characterization _).2.1 ['8'] (some ['5']) ['1', '1'] none
      (by decide) (by decide) (Or.inl rfl)
  · exact (parse_trim_characterization _).2.1 ['8'] none ['9'] none
      (by decide) (by decide) (Or.inr rfl)
  · exact (parse_trim_characterization _).2.2 [' '] [] [] [' '] 'X' ['8'] (some ['5'])
      ['1', '1'] none (by decide) (by decide) (by decide) (by decide) (by decide)
      (by decide) (by decide) rfl

theorem cover_parse_accepts_padded :
    parse_trim_cover [' ', '8', 'x', '9', ' '] = some (8, 9) ∧
    ¬ TrimMatches [' ', '8', 'x', '9', ' '] := by
  constructor
  · have h := parse_trim_cover_complete [' '] [] [] [' '] 'x' ['8'] none ['9'] none
      (by decide) (by decide) (by decide) (by decide) (by decide) (by decide) (by decide)
    have hc : coverRender [' '] ['8'] none [] 'x' [] ['9'] none [' ']
        = [' ', '8', 'x', '9', ' '] := rfl
    rw [hc] at h
    have h8 : digitsVal ['8'] = 8 := by decide
    have h9 : digitsVal ['9'] = 9 := by decide
    have hv8 : numVal ['8'] none = 8 := by simp [numVal, h8]
    have hv9 : numVal ['9'] none = 9 := by simp [numVal, h9]
    rw [hv8, hv9] at h
    exact h
  · intro hm
    have := TrimMatches_isSome hm
    rw [(by decide : parse_trim [' ', '8', 'x', '9', ' '] = none)] at this
    simp at this

/-! ### Claim C6: interior document shape -/

theorem extractKeys_length :
    ∀ (l : List (List Char)) (ks : List ℕ), extractKeys l = some ks → ks.length = l.length := by
  intro l
  induction l with
  | nil => intro ks h; simp [extractKeys] at h; subst h; rfl
  | cons n t ih =>
    intro ks h
    unfold extractKeys at h
    cases hk : searchKey n with
    | none => rw [hk] at h; simp at h
    | some k =>
      rw [hk] at h
      cases ht : extractKeys t with
      | none => rw [ht] at h; simp at h
      | some ks' =>
        rw [ht] at h
        simp only [Option.some.injEq] at h
        subst h
        simp [ih ks' ht]

theorem interior_pages_shape (listing : List (List Char)) (ps : List IPage)
    (h : build_interior_pages listing = some ps) :
    ∃ ks, interiorKeys listing = some ks ∧ ks ≠ [] ∧
      ps = IPage.belongsTo :: IPage.copyright :: (sortKeysAsc ks).map IPage.coloring ∧
      ps.length = 2 + (listing.filter globFbnpPng).length ∧
      List.Sorted (· ≤ ·) (sortKeysAsc ks) ∧
      (sortKeysAsc ks).Perm ks := by
  unfold build_interior_pages at h
  cases hk : interiorKeys listing with
  | none => rw [hk] at h; exact absurd h (by simp)
  | some ks =>
    rw [hk] at h
    dsimp only at h
    by_cases he : ks.isEmpty
    · rw [if_pos he] at h; exact absurd h (by simp)
    · rw [if_neg he] at h
      simp only [Option.some.injEq] at h
      subst h
      have hperm : (sortKeysAsc ks).Perm ks := List.perm_insertionSort _ ks
      refine ⟨ks, rfl, by simpa [List.isEmpty_eq_false] using he, rfl, ?_, ?_, hperm⟩
      · have h1 : (sortKeysAsc ks).length = ks.length := hperm.length_eq
        have h2 : ks.length = (listing.filter globFbnpPng).length :=
          extractKeys_length _ _ hk
        simp [h1, h2]
        omega
      · exact List.sorted_insertionSort _ ks

theorem interior_pages_shape_witness :
    ∃ ks,
      interiorKeys [['f', 'b', 'n', 'p', '_', '2', '.', 'p', 'n', 'g'],
        ['f', 'b', 'n', 'p', '_', '1', '.', 'p', 'n', 'g'],
        ['c', 'o', 'v', 'e', 'r', '.', 't', 'x', 't']] = some ks ∧ ks ≠ [] ∧
      [IPage.belongsTo, IPage.copyright, IPage.coloring 1, IPage.coloring 2]
        = IPage.belongsTo :: IPage.copyright :: (sortKeysAsc ks).map IPage.coloring ∧
      ([IPage.belongsTo, IPage.copyright, IPage.coloring 1, IPage.coloring 2] : List IPage).length
        = 2 + (([['f', 'b', 'n', 'p', '_', '2', '.', 'p', 'n', 'g'],
            ['f', 'b', 'n', 'p', '_', '1', '.', 'p', 'n', 'g'],
            ['c', 'o', 'v', 'e', 'r', '.', 't', 'x', 't']].filter globFbnpPng)).length ∧
      List.Sorted (· ≤ ·) (sortKeysAsc ks) ∧
      (sortKeysAsc ks).Perm ks :=
  interior_pages_shape _ _ (by decide)

/-! ### Claim C1: interior art recolouring -/

theorem autocontrastL_length (img : List ℕ) : (autocontrastL img).length = img.length := by
  unfold autocontrastL
  cases img with
  | nil => rfl
  | cons a t =>
    dsimp only
    split
    · rfl
    · simp

theorem putChannel_alpha_eq_map (j : ℕ) (art : List Pixel) :
    putChannel j art (alphaBand art) = art.map (fun p =>
      match j with
      | 0 => (p.2.2.2, p.2.1, p.2.2.1, p.2.2.2)
      | 1 => (p.1, p.2.2.2, p.2.2.1, p.2.2.2)
      | 2 => (p.1, p.2.1, p.2.2.2, p.2.2.2)
      | _ => (p.1, p.2.1, p.2.2.1, p.2.2.2)) := by
  unfold putChannel alphaBand
  rw [List.zipWith_map_right, List.zipWith_same]

theorem recolorArt_opaque_white_aux (img : List ℕ) :
    recolorArt img = List.replicate img.length (255, 255, 255, 255) := by
  unfold recolorArt
  simp only [List.foldl_cons, List.foldl_nil]
  rw [putChannel_alpha_eq_map, putChannel_alpha_eq_map, putChannel_alpha_eq_map]
  unfold convertLtoRGBA
  simp only [List.map_map]
  rw [← autocontrastL_length img]
  generalize autocontrastL img = l
  induction l with
  | nil => rfl
  | cons a t ih =>
    simp only [List.map_cons, List.length_cons, List.replicate_succ] at ih ⊢
    rw [ih]
    rfl


/-- Claim C1 (code-bug evidence): the recolouring step of build_cover turns
every interior image into fully opaque white pixels (255,255,255,255) -- not
opaque black on a transparent background -- because it copies the constant-255
alpha band into the R, G and B channels; shown in general and at the concrete
one-black-pixel image. -/
theorem recolorArt_opaque_white (img : List ℕ) :
    recolorArt img = List.replicate img.length (255, 255, 255, 255) ∧
    recolorArt [0] = [(255, 255, 255, 255)] :=
  ⟨recolorArt_opaque_white_aux img, by decide⟩

/-! ### Claims C2 and C10: background handling -/

/-- Claim C2 (code-bug evidence): with the background spec gradient:pastel:1
the canvas produced by the background step is entirely the initial white fill,
while the gradient the code computes (and discards) starts with the palette
top colour #FDE68A = (253,230,138) on its first row. -/
theorem gradient_background_discarded :
    (∃ im, background_step gp1 ⟨100, 100⟩ = some im ∧
      ∀ y x, im.pix y x = (255, 255, 255, 255)) ∧
    (draw_gradient (convertRGB (imgNewRGBA 100 100 (255, 255, 255, 255)))
        (colorOfHex ['#', 'F', 'D', 'E', '6', '8', 'A'])
        (colorOfHex ['#', 'A', '7', 'F', '3', 'D', '0'])).pix 0 0 = (253, 230, 138) ∧
    ((253, 230, 138) : RGB) ≠ (255, 255, 255) := by
  refine ⟨⟨convertRGBAofRGBA (imgNewRGBA 100 100 (255, 255, 255, 255)), ?_, ?_⟩, ?_, by decide⟩
  · rfl
  · intro y x
    rfl
  · decide

theorem gradIdx_bounds (bg : List Char) :
    0 ≤ gradIdx bg ∧ gradIdx bg ≤ 4 ∧ (pyInt? (gradVariant bg) = none → gradIdx bg = 0) := by
  unfold gradIdx
  cases h : pyInt? (gradVariant bg) with
  | none => exact ⟨le_refl 0, by norm_num, fun _ => rfl⟩
  | some n =>
    refine ⟨le_max_left 0 _, ?_, fun hc => by simp at hc⟩
    show max 0 (min ((PASTEL_PALETTES.length : ℤ) - 1) n) ≤ 4
    have h5 : ((PASTEL_PALETTES.length : ℤ) - 1) = 4 := by rfl
    rw [h5]
    omega

/-- The colour parse succeeds on a # followed by six hex digits plus the
appended alpha ff. -/
theorem getrgba_hex_append (t : List Char) (h6 : t.length = 6) (hall : t.all isHexC = true) :
    ∃ px, getrgba? (('#' :: t) ++ ['f', 'f']) = some px := by
  unfold getrgba?
  rw [List.cons_append, List.head?_cons, if_pos rfl]
  dsimp only [List.tail_cons]
  rw [if_pos ?hc]
  case hc =>
    refine ⟨?_, ?_⟩
    · simp [h6]
    · rw [List.all_append, hall]
      decide
  exact ⟨_, rfl⟩

/-- The colour parse raises when the digits carry an embedded newline. -/
theorem getrgba_hex_append_none (u : List Char) (hmem : '\n' ∈ u) :
    getrgba? (('#' :: u) ++ ['f', 'f']) = none := by
  unfold getrgba?
  rw [List.cons_append, List.head?_cons, if_pos rfl]
  dsimp only [List.tail_cons]
  rw [if_neg ?hc]
  case hc =>
    rintro ⟨-, hall⟩
    have := List.all_eq_true.mp hall '\n' (by simp [hmem])
    exact absurd this (by decide)

theorem mem_of_getLast? {l : List Char} {a : Char} (h : l.getLast? = some a) : a ∈ l := by
  induction l with
  | nil => simp at h
  | cons b t ih =>
    cases t with
    | nil =>
      simp only [List.getLast?_singleton, Option.some.injEq] at h
      subst h
      simp
    | cons c u =>
      rw [List.getLast?_cons_cons] at h
      exact List.mem_cons_of_mem _ (ih h)

/-- Claim C10, counterexample: the string of six hex digits followed by a
newline is neither a gradient spec nor a 6-hex-digit colour, yet it matches
the code's hex regex (whose anchor $ matches before the trailing newline) and
the subsequent colour parse raises, so the build fails instead of falling
through to the default fill. -/
theorem background_step_raises_on_trailing_newline :
    startsWithL gradientPastelPre ['a', 'a', 'b', 'b', 'c', 'c', '\n'] = false ∧
    isHex6Color ['a', 'a', 'b', 'b', 'c', 'c', '\n'] = false ∧
    hexMatch ['a', 'a', 'b', 'b', 'c', 'c', '\n'] = true ∧
    (background_step ['a', 'a', 'b', 'b', 'c', 'c', '\n'] ⟨100, 100⟩).isSome = false := by
  refine ⟨by decide, by decide, by decide, ?_⟩
  decide

/-- Claim C10 (amended): the pastel-gradient branch never raises -- the
palette index is clamped into [0,4] and is 0 when the variant is not an
integer literal; a bg matching neither the gradient prefix nor the hex regex
falls through to the default fill #E0F2FE; a bg matching the hex regex with
no trailing newline fills that solid colour without raising; but a
hex-matching bg with a trailing newline makes the colour parse raise, so the
background handling is not total. -/
theorem background_step_characterization (bg : List Char) (sz : SizePx) :
    (0 ≤ gradIdx bg ∧ gradIdx bg ≤ 4 ∧ (pyInt? (gradVariant bg) = none → gradIdx bg = 0)) ∧
    (startsWithL gradientPastelPre bg = true → (background_step bg sz).isSome = true) ∧
    (startsWithL gradientPastelPre bg = false → hexMatch bg = false →
      ∃ im, background_step bg sz = some im ∧ ∀ y x, im.pix y x = (224, 242, 254, 255)) ∧
    (startsWithL gradientPastelPre bg = false → hexMatch bg = true →
      bg.getLast? ≠ some '\n' → (background_step bg sz).isSome = true) ∧
    (startsWithL gradientPastelPre bg = false → hexMatch bg = true →
      bg.getLast? = some '\n' → (background_step bg sz).isSome = false) := by
  obtain ⟨hb1, hb2, hb3⟩ := gradIdx_bounds bg
  refine ⟨⟨hb1, hb2, hb3⟩, ?_, ?_, ?_, ?_⟩
  · intro hg
    unfold background_step
    rw [if_pos hg]
    have hidx : (gradIdx bg).toNat < PASTEL_PALETTES.length := by
      have : (gradIdx bg).toNat ≤ 4 := by omega
      have h5 : PASTEL_PALETTES.length = 5 := rfl
      omega
    obtain ⟨pal, hp⟩ : ∃ pal, PASTEL_PALETTES[(gradIdx bg).toNat]? = some pal :=
      ⟨_, List.getElem?_eq_getElem hidx⟩
    rw [hp]
    rfl
  · intro hg hh
    unfold background_step
    rw [if_neg (by simp [hg]), if_neg (by simp [hh])]
    exact ⟨_, rfl, fun y x => rfl⟩
  · intro hg hh hnl
    unfold background_step
    rw [if_neg (by simp [hg]), if_pos hh]
    dsimp only
    have hstrip : stripNl bg = bg := by
      unfold stripNl
      rw [if_neg hnl]
    simp only [hexMatch, hstrip, Bool.and_eq_true, beq_iff_eq] at hh
    by_cases hhead : bg.head? = some '#'
    · obtain ⟨t, rfl⟩ : ∃ t, bg = '#' :: t := by
        cases bg with
        | nil => simp at hhead
        | cons c u =>
          simp only [List.head?_cons, Option.some.injEq] at hhead
          subst hhead
          exact ⟨u, rfl⟩
      rw [if_pos hhead] at hh ⊢
      simp only [List.tail_cons] at hh
      obtain ⟨px, hget⟩ := getrgba_hex_append t hh.1 hh.2
      rw [hget]
      rfl
    · rw [if_neg hhead] at hh ⊢
      obtain ⟨px, hget⟩ := getrgba_hex_append bg hh.1 hh.2
      rw [hget]
      rfl
  · intro hg hh hnl
    unfold background_step
    rw [if_neg (by simp [hg]), if_pos hh]
    dsimp only
    have hmem : '\n' ∈ bg := mem_of_getLast? hnl
    by_cases hhead : bg.head? = some '#'
    · obtain ⟨t, rfl⟩ : ∃ t, bg = '#' :: t := by
        cases bg with
        | nil => simp at hhead
        | cons c u =>
          simp only [List.head?_cons, Option.some.injEq] at hhead
          subst hhead
          exact ⟨u, rfl⟩
      rw [if_pos hhead]
      have hmt : '\n' ∈ t := by
        rcases List.mem_cons.mp hmem with hc | hc
        · exact absurd hc (by decide)
        · exact hc
      rw [getrgba_hex_append_none t hmt]
      rfl
    · rw [if_neg hhead]
      rw [getrgba_hex_append_none bg hmem]
      rfl

/-- Witness for background_step_characterization at a non-numeric gradient
variant, a spec that is neither gradient nor hex, a well-formed hex colour,
and a hex colour with a trailing newline. -/
theorem background_step_characterization_witness :
    gradIdx ['g', 'r', 'a', 'd', 'i', 'e', 'n', 't', ':', 'p', 'a', 's', 't', 'e', 'l', ':', 'z', 'z'] = 0 ∧
    (background_step
      ['g', 'r', 'a', 'd', 'i', 'e', 'n', 't', ':', 'p', 'a', 's', 't', 'e', 'l', ':', 'z', 'z']
      ⟨5195, 3375⟩).isSome = true ∧
    (∃ im, background_step ['b', 'l', 'u', 'e'] ⟨5195, 3375⟩ = some im ∧
      ∀ y x, im.pix y x = (224, 242, 254, 255)) ∧
    (background_step ['a', 'a', 'b', 'b', 'c', 'c'] ⟨5195, 3375⟩).isSome = true ∧
    (background_step ['a', 'a', 'b', 'b', 'c', 'c', '\n'] ⟨5195, 3375⟩).isSome = false :=
  ⟨(background_step_characterization
      ['g', 'r', 'a', 'd', 'i', 'e', 'n', 't', ':', 'p', 'a', 's', 't', 'e', 'l', ':', 'z', 'z']
      ⟨5195, 3375⟩).1.2.2 (by decide),
   (background_step_characterization
      ['g', 'r', 'a', 'd', 'i', 'e', 'n', 't', ':', 'p', 'a', 's', 't', 'e', 'l', ':', 'z', 'z']
      ⟨5195, 3375⟩).2.1 (by decide),
   (background_step_characterization ['b', 'l', 'u', 'e'] ⟨5195, 3375⟩).2.2.1
     (by decide) (by decide),
   (background_step_characterization ['a', 'a', 'b', 'b', 'c', 'c'] ⟨5195, 3375⟩).2.2.2.1
     (by decide) (by decide) (by decide),
   (background_step_characterization ['a', 'a', 'b', 'b', 'c', 'c', '\n'] ⟨5195, 3375⟩).2.2.2.2
     (by decide) (by decide) (by decide)⟩

/-! ### Claims C4 and C7: image selection and seeded determinism -/

theorem getD_cons_eraseIdx_perm {α : Type} :
    ∀ (l : List α) (j : ℕ) (d : α), j < l.length → l.Perm (l.getD j d :: l.eraseIdx j) := by
  intro l
  induction l with
  | nil => intro j d h; simp at h
  | cons a as ih =>
    intro j d h
    cases j with
    | zero => simp
    | succ j =>
      simp only [List.getD_cons_succ, List.eraseIdx_cons_succ]
      have hj : j < as.length := by simpa using h
      have h1 := ih j d hj
      exact (h1.cons a).trans (List.Perm.swap _ _ _)

theorem shuffleGo_perm {α : Type} :
    ∀ (fuel : ℕ) (l : List α) (st : RState), ((shuffleGo fuel l st).1).Perm l := by
  intro fuel
  induction fuel with
  | zero => intro l st; exact List.Perm.refl l
  | succ n ih =>
    intro l st
    cases l with
    | nil => exact List.Perm.refl _
    | cons a as =>
      simp only [shuffleGo]
      have hj : (randbelow (as.length + 1) st).1 < (a :: as).length := by
        have : (randbelow (as.length + 1) st).1 < max 1 (as.length + 1) :=
          Nat.mod_lt _ (by omega)
        simpa using this
      have h1 := ih ((a :: as).eraseIdx (randbelow (as.length + 1) st).1)
        (randbelow (as.length + 1) st).2
      have h2 := getD_cons_eraseIdx_perm (a :: as) (randbelow (as.length + 1) st).1 a hj
      exact ((h1.cons _).trans h2.symm)

theorem shuffleL_perm {α : Type} (l : List α) (st : RState) :
    ((shuffleL l st).1).Perm l := shuffleGo_perm l.length l st

/-- Claim C4 (amended): load_interior_images errors exactly when no file
matches the fbnp_<N>.png pattern; otherwise it returns a subset of the
discovered files of size min(max(2, min(max_images, N)), min(6, N)). -/
theorem load_interior_images_spec (listing : List (List Char)) (max_images : ℕ) (st : RState) :
    (cover_discover listing = [] → (load_interior_images listing max_images st).1 = none) ∧
    (cover_discover listing ≠ [] →
      ∃ sel st2, load_interior_images listing max_images st = (some sel, st2) ∧
        sel.length = min (max 2 (min max_images (cover_discover listing).length))
          (min 6 (cover_discover listing).length) ∧
        ∀ x ∈ sel, x ∈ cover_discover listing) := by
  constructor
  · intro h
    unfold load_interior_images
    rw [h]
    simp
  · intro h
    unfold load_interior_images
    rw [if_neg (by simpa [List.isEmpty_eq_false] using h)]
    refine ⟨_, _, rfl, ?_, ?_⟩
    · have hsh : ((shuffleL ((cover_discover listing).take
          (min 6 (cover_discover listing).length)) st).1).length
          = ((cover_discover listing).take (min 6 (cover_discover listing).length)).length :=
        (shuffleL_perm _ _).length_eq
      simp only [List.length_take, hsh]
      omega
    · intro x hx
      have h1 := List.mem_of_mem_take hx
      have h2 := (shuffleL_perm _ _).mem_iff.mp h1
      exact List.mem_of_mem_take h2

/-- Claim C4, counterexample: with 10 discovered files and max_images = 1 the
selection has size 2, exceeding the requested maximum of 1. -/
theorem load_interior_exceeds_requested_max :
    Option.map List.length (load_interior_images listingTen 1 (seedState 0)).1 = some 2 ∧
    ¬((2 : ℕ) ≤ 1) := by
  constructor
  · decide
  · decide

/-- Witness for load_interior_images_spec at a three-file directory. -/
theorem load_interior_images_spec_witness :
    cover_discover listingThree ≠ [] ∧
    ∃ sel st2, load_interior_images listingThree 5 (seedState 1) = (some sel, st2) ∧
      sel.length = min (max 2 (min 5 (cover_discover listingThree).length))
        (min 6 (cover_discover listingThree).length) ∧
      ∀ x ∈ sel, x ∈ cover_discover listingThree :=
  ⟨by decide, (load_interior_images_spec listingThree 5 (seedState 1)).2 (by decide)⟩

/-- Claim C7: with a fixed seed the whole pseudo-random plan of the cover
build -- selected images, layout boxes, jitter and rotation angles -- is
independent of the prior global generator state, so two successive builds
with identical inputs make identical pseudo-random choices. -/
theorem coverPlan_seed_deterministic (trim_w_in trim_h_in : ℚ) (pages : ℤ) (paper : Paper)
    (max_images : ℕ) (listing : List (List Char)) (s : ℕ) (g1 g2 : RState) :
    coverPlan trim_w_in trim_h_in pages paper max_images listing (some s) g1
      = coverPlan trim_w_in trim_h_in pages paper max_images listing (some s) g2 := rfl
